import Mathlib

/-!
Verification of the reactive property core of the muze charting library.

The development shallowly embeds the relevant parts of
`src/packages/muze-utils/src/common-utils.js` (the `transactor`
getter/setter factory, `unionDomain`, `checkExistence`, `sanitizeIP`,
`isEqual`, `arraysEqual`) and of the canvas helper module
(`equalityChecker`, `updateChecker`, `setupChangeListener`) as pure Lean
functions over an inductive model of JavaScript values.  JavaScript
exceptions are modelled with `Except String`; machine numbers are
modelled as `Int` (the verified claims only involve integral data).
-/

/-- Model of a JavaScript runtime value.  Object identity (needed because
`Object.is` and `===` compare references) is modelled by the `oid` field;
a data-model object additionally carries the result of its `isEmpty()`
method and its own enumerable key set (used by the `in` operator). -/
inductive JSVal where
  | undef
  | null
  | bool (b : Bool)
  | num (n : Int)
  | str (s : String)
  | arr (xs : List JSVal)
  | obj (ctor : String) (oid : Nat) (empty : Bool) (keys : List String)

mutual

/-- Decidable structural equality on `JSVal` (the model of reference
identity for arrays and objects, distinct objects carrying distinct
`oid`s). -/
def JSVal.decEq : (a b : JSVal) → Decidable (a = b)
  | .undef, .undef => isTrue rfl
  | .null, .null => isTrue rfl
  | .bool a, .bool b =>
      if h : a = b then isTrue (by rw [h]) else isFalse (fun hh => h (by cases hh; rfl))
  | .num a, .num b =>
      if h : a = b then isTrue (by rw [h]) else isFalse (fun hh => h (by cases hh; rfl))
  | .str a, .str b =>
      if h : a = b then isTrue (by rw [h]) else isFalse (fun hh => h (by cases hh; rfl))
  | .arr xs, .arr ys =>
      match JSVal.decEqList xs ys with
      | isTrue h => isTrue (by rw [h])
      | isFalse h => isFalse (fun hh => h (by cases hh; rfl))
  | .obj c i e k, .obj c' i' e' k' =>
      if h : c = c' ∧ i = i' ∧ e = e' ∧ k = k' then
        isTrue (by obtain ⟨h1, h2, h3, h4⟩ := h; rw [h1, h2, h3, h4])
      else isFalse (fun hh => h (by cases hh; exact ⟨rfl, rfl, rfl, rfl⟩))
  | .undef, .null | .undef, .bool _ | .undef, .num _ | .undef, .str _
  | .undef, .arr _ | .undef, .obj _ _ _ _
  | .null, .undef | .null, .bool _ | .null, .num _ | .null, .str _
  | .null, .arr _ | .null, .obj _ _ _ _
  | .bool _, .undef | .bool _, .null | .bool _, .num _ | .bool _, .str _
  | .bool _, .arr _ | .bool _, .obj _ _ _ _
  | .num _, .undef | .num _, .null | .num _, .bool _ | .num _, .str _
  | .num _, .arr _ | .num _, .obj _ _ _ _
  | .str _, .undef | .str _, .null | .str _, .bool _ | .str _, .num _
  | .str _, .arr _ | .str _, .obj _ _ _ _
  | .arr _, .undef | .arr _, .null | .arr _, .bool _ | .arr _, .num _
  | .arr _, .str _ | .arr _, .obj _ _ _ _
  | .obj _ _ _ _, .undef | .obj _ _ _ _, .null | .obj _ _ _ _, .bool _
  | .obj _ _ _ _, .num _ | .obj _ _ _ _, .str _ | .obj _ _ _ _, .arr _ =>
      isFalse (fun h => nomatch h)

/-- Decidable equality on lists of `JSVal`. -/
def JSVal.decEqList : (xs ys : List JSVal) → Decidable (xs = ys)
  | [], [] => isTrue rfl
  | [], _ :: _ => isFalse (fun h => nomatch h)
  | _ :: _, [] => isFalse (fun h => nomatch h)
  | x :: xs, y :: ys =>
      match JSVal.decEq x y, JSVal.decEqList xs ys with
      | isTrue h1, isTrue h2 => isTrue (by rw [h1, h2])
      | isFalse h1, _ => isFalse (fun hh => h1 (by cases hh; rfl))
      | _, isFalse h2 => isFalse (fun hh => h2 (by cases hh; rfl))

end

instance : DecidableEq JSVal := JSVal.decEq

/-- JavaScript truthiness of a value (`if (v)`).  `NaN` does not occur in
the integral model. -/
def JSVal.truthy : JSVal → Bool
  | .undef => false
  | .null => false
  | .bool b => b
  | .num n => decide (n ≠ 0)
  | .str s => decide (s ≠ "")
  | .arr _ => true
  | .obj _ _ _ _ => true

/-- Embeds `v.constructor.name` for a truthy value; the `undef`/`null` rows are
never consulted because every call site guards with truthiness first
(JavaScript would throw there). -/
def JSVal.ctorName : JSVal → String
  | .bool _ => "Boolean"
  | .num _ => "Number"
  | .str _ => "String"
  | .arr _ => "Array"
  | .obj c _ _ _ => c
  | .undef => "undefined"
  | .null => "null"

/-- Embeds `v.length`: throws on `undefined`/`null`, yields the length of arrays
and strings, and `undefined` (modelled as `none`) on other values. -/
def jsLen : JSVal → Except String (Option Nat)
  | .undef => .error "TypeError"
  | .null => .error "TypeError"
  | .arr xs => .ok (some xs.length)
  | .str s => .ok (some s.length)
  | _ => .ok none

/-- Embeds `v[i]` for a value on which member access cannot throw: array element,
string character, otherwise `undefined`. -/
def jsGet : JSVal → Nat → JSVal
  | .arr xs, i => xs.getD i .undef
  | .str s, i =>
      match s.data.get? i with
      | some c => .str (String.mk [c])
      | none => JSVal.undef
  | _, _ => JSVal.undef

/-- Embeds `v[i]` including the throwing cases (`undefined[i]`, `null[i]`). -/
def jsIndex (v : JSVal) (i : Nat) : Except String JSVal :=
  match v with
  | .undef => .error "TypeError"
  | .null => .error "TypeError"
  | w => .ok (jsGet w i)

/-- The value stored in a descriptor's `meta.typeCheck` slot.  `fn` is a
predicate function, `strv` a string (only the literal `"constructor"`
selects the constructor-name comparison), `arr` the per-position array
used with `spreadParams`, `undef` an absent slot, and `othr` any other
value together with its truthiness. -/
inductive TCheck where
  | fn (f : JSVal → JSVal)
  | strv (s : String)
  | arr (xs : List TCheck)
  | undef
  | othr (t : Bool)

/-- Truthiness of a `meta.typeCheck` slot value. -/
def TCheck.truthy : TCheck → Bool
  | .fn _ => true
  | .strv s => decide (s ≠ "")
  | .arr _ => true
  | .undef => false
  | .othr t => t

/-- Property access `typeCheck[i]` on a truthy slot value. -/
def TCheck.idx : TCheck → Nat → TCheck
  | .arr xs, i => xs.getD i TCheck.undef
  | .strv s, i =>
      match s.data.get? i with
      | some c => .strv (String.mk [c])
      | none => TCheck.undef
  | _, _ => TCheck.undef

/-- Embeds `meta.typeCheck && (spreadParams ? meta.typeCheck[i] : meta.typeCheck)`. -/
def effTC (spread : Bool) (tc : TCheck) (i : Nat) : TCheck :=
  if tc.truthy then (if spread then tc.idx i else tc) else tc

/-- The value stored in a descriptor's `meta.sanitization` slot. -/
inductive SField where
  | fn (f : JSVal → JSVal → JSVal)
  | arr (xs : List SField)
  | undef
  | othr (t : Bool)

/-- Truthiness of a `meta.sanitization` slot value. -/
def SField.truthy : SField → Bool
  | .fn _ => true
  | .arr _ => true
  | .undef => false
  | .othr t => t

/-- Property access `sanitization[i]` on a truthy slot value. -/
def SField.idx : SField → Nat → SField
  | .arr xs, i => xs.getD i SField.undef
  | _, _ => SField.undef

/-- Embeds `meta.sanitization && (spreadParams ? meta.sanitization[i] : meta.sanitization)`. -/
def effS (spread : Bool) (s : SField) (i : Nat) : SField :=
  if s.truthy then (if spread then s.idx i else s) else s

/-- A transactor property descriptor's `meta` object
(`{typeCheck, typeExpected, sanitization, spreadParams, preset}`); the
`preset` hook is modelled by its presence, its invocation being recorded
in the setter's output. -/
structure Meta where
  spreadParams : Bool
  typeCheck : TCheck
  typeExpected : JSVal
  sanitization : SField
  preset : Bool

/-- Sanitization step of the transactor setter for the `i`-th positional
argument: apply the effective sanitizer when it is a function, else keep
the value (`sanitization(val, prevVal, holder)`, the holder being
irrelevant to the modelled sanitizers). -/
def sanitize (m : Meta) (prev p : JSVal) (i : Nat) : JSVal :=
  match effS m.spreadParams m.sanitization i with
  | .fn f => f p prev
  | _ => p

/-- Type-check step of the transactor setter for the `i`-th positional
argument applied to the sanitized value `v`; `.ok true` means the value
is accepted into `values`.  Mirrors the source exactly: a function check
compares its result against `typeExpected` (default `true`); the literal
string `"constructor"` compares `v.constructor.name` after a truthiness
guard (in `spreadParams` mode `meta.typeExpected[i]` is read first and
throws when `typeExpected` is absent); any other string drops the value;
any other truthy slot value accepts it, as does an absent check. -/
def tcDecide (m : Meta) (i : Nat) (v : JSVal) : Except String Bool :=
  match effTC m.spreadParams m.typeCheck i with
  | .fn f =>
      let te := if m.typeExpected.truthy && m.spreadParams then jsGet m.typeExpected i
                else m.typeExpected
      let cmp := if te.truthy then te else .bool true
      .ok (decide (f v = cmp))
  | .strv s =>
      if s = "" then .ok true
      else if s = "constructor" then do
        let te ← if m.spreadParams then jsIndex m.typeExpected i else .ok m.typeExpected
        .ok (v.truthy && decide (JSVal.str v.ctorName = te))
      else .ok false
  | _ => .ok true

/-- Whether the `i`-th positional argument `p` survives sanitization and
type-checking. -/
def accepts (m : Meta) (prev : JSVal) (i : Nat) (p : JSVal) : Except String Bool :=
  tcDecide m i (sanitize m prev p i)

/-- The setter's filtering loop from position `i` on: accumulates the
sanitized values that pass their type check, propagating any thrown
exception. -/
def filterGo (m : Meta) (prev : JSVal) : List JSVal → Nat → Except String (List JSVal)
  | [], _ => .ok []
  | p :: ps, i => do
      let b ← accepts m prev i p
      let rest ← filterGo m prev ps (i + 1)
      if b then .ok (sanitize m prev p i :: rest) else .ok rest

/-- The `values` list accumulated by a transactor setter call. -/
def filterVals (m : Meta) (prev : JSVal) (params : List JSVal) : Except String (List JSVal) :=
  filterGo m prev params 0

/-- The `spreadParams` merge
`oldValues.forEach((value, i) => { if (values[i] === undefined) values[i] = value; })`:
positions of `values` that hold `undefined` (including positions past its
end) are refilled from `olds`, up to the length of `olds`. -/
def mergeSpread (values olds : List JSVal) : List JSVal :=
  (List.range (max values.length olds.length)).map fun i =>
    if values.getD i JSVal.undef = JSVal.undef ∧ i < olds.length then olds.getD i JSVal.undef
    else values.getD i JSVal.undef

/-- Observable outcome of one transactor setter call: the argument the
`preset` hook was invoked with (when declared), the value committed to
the backing store (`none` when the commit was skipped), and the stored
value afterwards. -/
structure SetterOut where
  presetArg : Option JSVal
  committed : Option JSVal
  stored : JSVal
deriving DecidableEq

/-- One transactor setter call (`paramsLen >= 1`, descriptor meta present)
against current stored value `prev`.  In `spreadParams` mode the merge
refills missing positions from the previous sequence (throwing when the
previous value is not an array, as `oldValues.forEach` does) and commits
the merged sequence when non-empty; otherwise the first accepted value is
committed, and when no value survives the commit is skipped. -/
def setterRun (m : Meta) (prev : JSVal) (params : List JSVal) : Except String SetterOut := do
  let values ← filterVals m prev params
  let pArg := if m.preset then some (values.headD JSVal.undef) else none
  if m.spreadParams then
    match prev with
    | .arr olds =>
        let merged := mergeSpread values olds
        if merged.length ≠ 0 then .ok ⟨pArg, some (.arr merged), .arr merged⟩
        else .ok ⟨pArg, none, prev⟩
    | _ => .error "TypeError"
  else
    if values.length ≠ 0 then .ok ⟨pArg, some (values.headD JSVal.undef), values.headD JSVal.undef⟩
    else .ok ⟨pArg, none, prev⟩

/-- Result of calling a transactor-generated accessor: a getter result or
an executed setter. -/
inductive AccessOut where
  | got (v : JSVal)
  | set (out : SetterOut)
deriving DecidableEq

/-- A transactor-generated accessor: with at least one argument it is a
setter, with zero arguments a getter returning the stored value. -/
def accessor (m : Meta) (stored : JSVal) (params : List JSVal) : Except String AccessOut :=
  if params.length ≠ 0 then (setterRun m stored params).map .set
  else .ok (.got stored)

/-- Embeds `DimensionSubtype.CATEGORICAL` from the muze-utils enums. -/
def CATEGORICAL : String := "categorical"

/-- The underlying integers of a list of values when every element is a
number, `none` otherwise. -/
def allNums : List JSVal → Option (List Int)
  | [] => some []
  | JSVal.num n :: xs =>
      match allNums xs with
      | some ns => some (n :: ns)
      | none => none
  | _ :: _ => none

/-- Embeds `Math.min(...)` over a list of values: the integral minimum when every
element is a number and the list is non-empty; `undef` stands in for the
`Infinity`/`NaN` results of the other cases, which no verified claim
reaches. -/
def jsMinList (xs : List JSVal) : JSVal :=
  match allNums xs with
  | some (n :: ns) => .num (ns.foldl min n)
  | _ => JSVal.undef

/-- Embeds `Math.max(...)` over a list of values, in the same style as `jsMinList`. -/
def jsMaxList (xs : List JSVal) : JSVal :=
  match allNums xs with
  | some (n :: ns) => .num (ns.foldl max n)
  | _ => JSVal.undef

/-- Embeds `unionDomain(domains, fieldType)`: empty contributing domains are
filtered out; a categorical field concatenates the survivors, any other
field takes `[Math.min of the d[0] entries, Math.max of the d[1] entries]`. -/
def unionDomain (domains : List (List JSVal)) (fieldType : String) : List JSVal :=
  let ds := domains.filter (fun d => d.length ≠ 0)
  if fieldType = CATEGORICAL then ds.flatten
  else [jsMinList (ds.map (fun d => d.getD 0 .undef)), jsMaxList (ds.map (fun d => d.getD 1 .undef))]

/-- Embeds `typeof v` as a string; note the JavaScript quirk `typeof null === "object"`. -/
def typeofStr : JSVal → String
  | .undef => "undefined"
  | .null => "object"
  | .bool _ => "boolean"
  | .num _ => "number"
  | .str _ => "string"
  | .arr _ => "object"
  | .obj _ _ _ _ => "object"

/-- The `in` operator `key in v`: throws on `undefined`/`null` and on
primitives, consults the index/`length` keys of an array and the key set
of an object. -/
def hasKey (v : JSVal) (key : String) : Except String Bool :=
  match v with
  | .undef => .error "TypeError"
  | .null => .error "TypeError"
  | .bool _ => .error "TypeError"
  | .num _ => .error "TypeError"
  | .str _ => .error "TypeError"
  | .arr xs => .ok (decide (key = "length") || ((List.range xs.length).map toString).contains key)
  | .obj _ _ _ keys => .ok (keys.contains key)

/-- Embeds `checkExistence(keys, obj)`: the subsequence of `keys` absent from
`obj`, in order; membership tests propagate the exceptions of `in`. -/
def checkExistence : List String → JSVal → Except String (List String)
  | [], _ => .ok []
  | k :: ks, o => do
      let b ← hasKey o k
      let rest ← checkExistence ks o
      if b then .ok rest else .ok (k :: rest)

/-- Result of a sanitization helper: a returned `Error` value or the
passed-through object. -/
inductive SanResult where
  | err (msg : String)
  | pass (v : JSVal)
deriving DecidableEq

/-- Embeds `sanitizeIP.typeObj(keys, obj)`: an `Error` value when `typeof obj`
is not `"object"`, an `Error` listing the missing keys when some are
absent, otherwise the object itself. -/
def sanitizeIP_typeObj (keys : List String) (o : JSVal) : Except String SanResult :=
  if typeofStr o ≠ "object" then .ok (.err "Argument type object expected")
  else do
    let ne ← checkExistence keys o
    if ne.length ≠ 0 then .ok (.err ("Missing keys from parameter " ++ String.intercalate ", " ne))
    else .ok (.pass o)

/-- Embeds `arraysEqual(arr1, arr2)`: length comparison (throwing where `.length`
throws) followed by the element-wise `===` loop; equal `undefined`
lengths skip the loop and report equality. -/
def arraysEqual (o n : JSVal) : Except String Bool := do
  let l1 ← jsLen o
  let l2 ← jsLen n
  if l1 ≠ l2 then .ok false
  else
    match l1 with
    | none => .ok true
    | some len => .ok ((List.range len).all fun i => decide (jsGet o i = jsGet n i))

/-- Embeds `isEqual(type)(oldVal, newVal)`: deep array equality after a falsy
guard on the old value for `"Array"`, `Object.is` (reference identity,
modelled by structural equality over `oid`-tagged objects) for
`"Object"`, strict equality otherwise. -/
def isEqual (type : String) (o n : JSVal) : Except String Bool :=
  if type = "Array" then
    if o.truthy = false then .ok false else arraysEqual o n
  else if type = "Object" then .ok (decide (o = n))
  else .ok (decide (o = n))

/-- Modelled from the spec: the property-name constants imported from the
canvas `../constants` module (absent from the corpus); §4.4 names the
recognized categories rows, columns, detail, shape, size, color, data,
config. Only their identity and distinctness matter to the checkers. -/
def ROWS : String := "rows"

/-- Modelled from the spec: see `ROWS`. -/
def COLUMNS : String := "columns"

/-- Modelled from the spec: see `ROWS`. -/
def DETAIL : String := "detail"

/-- Modelled from the spec: see `ROWS`. -/
def SHAPE : String := "shape"

/-- Modelled from the spec: see `ROWS`. -/
def SIZE : String := "size"

/-- Modelled from the spec: see `ROWS`. -/
def COLOR : String := "color"

/-- Modelled from the spec: see `ROWS`. -/
def DATA : String := "data"

/-- Modelled from the spec: see `ROWS`. -/
def CONFIG : String := "config"

/-- The property names with a dedicated equality category in
`equalityChecker`'s switch. -/
def knownCanvasProps : List String :=
  [ROWS, COLUMNS, DETAIL, SHAPE, SIZE, COLOR, DATA, CONFIG]

/-- The per-property checker selected by `equalityChecker`'s switch:
`isEqual('Array')` for rows/columns/detail, `isEqual('Object')` for
shape/size/color/data/config, and the constant-true checker (values
deemed equal) for every other property name. -/
def perPropChecker (option : String) (o n : JSVal) : Except String Bool :=
  if option = ROWS ∨ option = COLUMNS ∨ option = DETAIL then isEqual "Array" o n
  else if option = SHAPE ∨ option = SIZE ∨ option = COLOR ∨ option = DATA ∨ option = CONFIG then
    isEqual "Object" o n
  else .ok true

/-- The `props.every(...)` loop inside `equalityChecker`: true when every
watched property's `[old, new]` pair is deemed equal, stopping at the
first unequal pair; reading `params[i]` past the end of `params` throws. -/
def eqEvery : List String → List (JSVal × JSVal) → Except String Bool
  | [], _ => .ok true
  | _ :: _, [] => .error "TypeError"
  | p :: ps, q :: qs => do
      let b ← perPropChecker p q.1 q.2
      if b then eqEvery ps qs else .ok false

/-- Embeds `equalityChecker(props, params)`: true when at least one watched
property changed under its per-category equality. -/
def equalityChecker (props : List String) (params : List (JSVal × JSVal)) :
    Except String Bool :=
  (eqEvery props params).map (fun b => !b)

/-- Embeds `v.isEmpty()`: defined on data-model objects, throws elsewhere. -/
def isEmptyCall : JSVal → Except String Bool
  | .obj _ _ e _ => .ok e
  | _ => .error "TypeError"

/-- One step of `updateChecker`: rows/columns must be non-null, data must
be truthy and non-empty, anything else passes. -/
def updateCheckerProp (option : String) (v : JSVal) : Except String Bool :=
  if option = ROWS ∨ option = COLUMNS then .ok (decide (v ≠ .null))
  else if option = DATA then
    if v.truthy then do
      let e ← isEmptyCall v
      .ok (!e)
    else .ok false
  else .ok true

/-- Embeds `updateChecker(props, params)`: every watched property's new value
(`params[i][1]`) must pass its validity rule, stopping at the first
failure; reading `params[i]` past the end of `params` throws. -/
def updateChecker : List String → List (JSVal × JSVal) → Except String Bool
  | [], _ => .ok true
  | _ :: _, [] => .error "TypeError"
  | p :: ps, q :: qs => do
      let b ← updateCheckerProp p q.2
      if b then updateChecker ps qs else .ok false

/-- The decision made by the canvas change listener installed by
`setupChangeListener`: `equalityChecker` is evaluated first but its
result is immediately overwritten by `updateChecker`, and the downstream
`dispatchProps`/`render` work runs exactly when the final value is
`.ok true` (the update check passed and `context.mount()` is truthy). -/
def canvasListenerDecision (props : List String) (params : List (JSVal × JSVal))
    (mount : JSVal) : Except String Bool := do
  let _eq ← equalityChecker props params
  let u ← updateChecker props params
  .ok (u && mount.truthy)

/-- The minimum of a list of integers (`0` on the empty list, which no
use reaches). -/
def intMinOf : List Int → Int
  | [] => 0
  | x :: xs => xs.foldl min x

/-- The maximum of a list of integers (`0` on the empty list, which no
use reaches). -/
def intMaxOf : List Int → Int
  | [] => 0
  | x :: xs => xs.foldl max x

/-- A list of continuous contributing-series domains `[lower, upper]`
rendered as JavaScript arrays of numbers. -/
def numDomains (ds : List (Int × Int)) : List (List JSVal) :=
  ds.map (fun p => [JSVal.num p.1, JSVal.num p.2])

lemma foldl_min_le_init (l : List Int) (a : Int) : l.foldl min a ≤ a := by
  induction l generalizing a with
  | nil => exact le_refl a
  | cons x xs ih => exact le_trans (ih (min a x)) (min_le_left a x)

lemma foldl_min_le_mem (l : List Int) (a x : Int) (hx : x ∈ l) : l.foldl min a ≤ x := by
  induction l generalizing a with
  | nil => cases hx
  | cons y ys ih =>
      rcases List.mem_cons.mp hx with h | h
      · subst h
        exact le_trans (foldl_min_le_init ys (min a x)) (min_le_right a x)
      · exact ih (min a y) h

lemma foldl_min_mem (l : List Int) (a : Int) : l.foldl min a = a ∨ l.foldl min a ∈ l := by
  induction l generalizing a with
  | nil => exact Or.inl rfl
  | cons y ys ih =>
      rcases ih (min a y) with h | h
      · rcases min_cases a y with ⟨h2, _⟩ | ⟨h2, _⟩
        · exact Or.inl (by rw [List.foldl_cons, h, h2])
        · exact Or.inr (by rw [List.foldl_cons, h, h2]; exact List.mem_cons_self y ys)
      · exact Or.inr (List.mem_cons_of_mem y h)

lemma foldl_max_init_le (l : List Int) (a : Int) : a ≤ l.foldl max a := by
  induction l generalizing a with
  | nil => exact le_refl a
  | cons x xs ih => exact le_trans (le_max_left a x) (ih (max a x))

lemma foldl_max_mem_le (l : List Int) (a x : Int) (hx : x ∈ l) : x ≤ l.foldl max a := by
  induction l generalizing a with
  | nil => cases hx
  | cons y ys ih =>
      rcases List.mem_cons.mp hx with h | h
      · subst h
        exact le_trans (le_max_right a x) (foldl_max_init_le ys (max a x))
      · exact ih (max a y) h

lemma foldl_max_mem (l : List Int) (a : Int) : l.foldl max a = a ∨ l.foldl max a ∈ l := by
  induction l generalizing a with
  | nil => exact Or.inl rfl
  | cons y ys ih =>
      rcases ih (max a y) with h | h
      · rcases max_cases a y with ⟨h2, _⟩ | ⟨h2, _⟩
        · exact Or.inl (by rw [List.foldl_cons, h, h2])
        · exact Or.inr (by rw [List.foldl_cons, h, h2]; exact List.mem_cons_self y ys)
      · exact Or.inr (List.mem_cons_of_mem y h)

lemma intMinOf_mem (l : List Int) (h : l ≠ []) : intMinOf l ∈ l := by
  match l with
  | [] => exact absurd rfl h
  | x :: xs =>
      rcases foldl_min_mem xs x with h2 | h2
      · rw [intMinOf, h2]; exact List.mem_cons_self x xs
      · exact List.mem_cons_of_mem x (by rw [intMinOf]; exact h2)

lemma intMinOf_le (l : List Int) (x : Int) (hx : x ∈ l) : intMinOf l ≤ x := by
  match l with
  | [] => cases hx
  | y :: ys =>
      rcases List.mem_cons.mp hx with h | h
      · subst h; exact foldl_min_le_init ys x
      · exact foldl_min_le_mem ys y x h

lemma intMaxOf_mem (l : List Int) (h : l ≠ []) : intMaxOf l ∈ l := by
  match l with
  | [] => exact absurd rfl h
  | x :: xs =>
      rcases foldl_max_mem xs x with h2 | h2
      · rw [intMaxOf, h2]; exact List.mem_cons_self x xs
      · exact List.mem_cons_of_mem x (by rw [intMaxOf]; exact h2)

lemma intMaxOf_ge (l : List Int) (x : Int) (hx : x ∈ l) : x ≤ intMaxOf l := by
  match l with
  | [] => cases hx
  | y :: ys =>
      rcases List.mem_cons.mp hx with h | h
      · subst h; exact foldl_max_init_le ys x
      · exact foldl_max_mem_le ys y x h

lemma intMinOf_perm (l l' : List Int) (hp : l.Perm l') (h : l ≠ []) :
    intMinOf l = intMinOf l' := by
  have h' : l' ≠ [] := by
    intro hx
    exact h (List.eq_nil_of_length_eq_zero (by rw [hp.length_eq, hx]; rfl))
  exact le_antisymm
    (intMinOf_le l _ ((hp.mem_iff).mpr (intMinOf_mem l' h')))
    (intMinOf_le l' _ ((hp.mem_iff).mp (intMinOf_mem l h)))

lemma intMaxOf_perm (l l' : List Int) (hp : l.Perm l') (h : l ≠ []) :
    intMaxOf l = intMaxOf l' := by
  have h' : l' ≠ [] := by
    intro hx
    exact h (List.eq_nil_of_length_eq_zero (by rw [hp.length_eq, hx]; rfl))
  exact le_antisymm
    (intMaxOf_ge l' _ ((hp.mem_iff).mp (intMaxOf_mem l h)))
    (intMaxOf_ge l _ ((hp.mem_iff).mpr (intMaxOf_mem l' h')))

lemma allNums_map (l : List Int) : allNums (l.map (fun n => JSVal.num n)) = some l := by
  induction l with
  | nil => rfl
  | cons x xs ih => rw [List.map_cons, allNums, ih]

lemma jsMinList_num (l : List Int) (h : l ≠ []) :
    jsMinList (l.map (fun n => JSVal.num n)) = .num (intMinOf l) := by
  match l with
  | [] => exact absurd rfl h
  | x :: xs =>
      unfold jsMinList
      rw [allNums_map]
      rfl

lemma jsMaxList_num (l : List Int) (h : l ≠ []) :
    jsMaxList (l.map (fun n => JSVal.num n)) = .num (intMaxOf l) := by
  match l with
  | [] => exact absurd rfl h
  | x :: xs =>
      unfold jsMaxList
      rw [allNums_map]
      rfl

lemma unionDomain_numDomains (ds : List (Int × Int)) (ft : String)
    (hft : ft ≠ CATEGORICAL) (hne : ds ≠ []) :
    unionDomain (numDomains ds) ft
      = [.num (intMinOf (ds.map Prod.fst)), .num (intMaxOf (ds.map Prod.snd))] := by
  have hmapne : ds.map Prod.fst ≠ [] := by
    intro hx
    exact hne (List.map_eq_nil_iff.mp hx)
  have hmapne2 : ds.map Prod.snd ≠ [] := by
    intro hx
    exact hne (List.map_eq_nil_iff.mp hx)
  have hfil : (numDomains ds).filter (fun d => d.length ≠ 0) = numDomains ds := by
    rw [List.filter_eq_self]
    intro d hd
    rcases List.mem_map.mp hd with ⟨p, _, rfl⟩
    simp
  have h0 : (numDomains ds).map (fun d => d.getD 0 JSVal.undef)
      = (ds.map Prod.fst).map (fun n => JSVal.num n) := by
    unfold numDomains
    rw [List.map_map, List.map_map]
    rfl
  have h1 : (numDomains ds).map (fun d => d.getD 1 JSVal.undef)
      = (ds.map Prod.snd).map (fun n => JSVal.num n) := by
    unfold numDomains
    rw [List.map_map, List.map_map]
    rfl
  unfold unionDomain
  rw [hfil, if_neg hft, h0, h1, jsMinList_num _ hmapne, jsMaxList_num _ hmapne2]

/-- Claim C6, counterexample: `unionDomain` over the categorical
contributing domains `['a','b']` and `['b','c']` yields
`['a','b','b','c']` — a plain concatenation — and not the deduplicated
union `['a','b','c']` the claim states. -/
theorem unionDomain_categorical_cex :
    unionDomain [[.str "a", .str "b"], [.str "b", .str "c"]] CATEGORICAL
      = [.str "a", .str "b", .str "b", .str "c"] ∧
    unionDomain [[.str "a", .str "b"], [.str "b", .str "c"]] CATEGORICAL
      ≠ [.str "a", .str "b", .str "c"] :=
  ⟨rfl, by decide⟩

/-- Claim C6 (amended): for categorical fields, `unionDomain` of non-empty
contributing domains is their order-preserving concatenation — first-seen
order across series is kept but duplicates are NOT removed — and its
members are exactly the values occurring in some contributing domain. -/
theorem unionDomain_categorical_amended (domains : List (List JSVal)) (x : JSVal)
    (h : ∀ d ∈ domains, d ≠ []) :
    unionDomain domains CATEGORICAL = domains.flatten ∧
    (x ∈ unionDomain domains CATEGORICAL ↔ ∃ d ∈ domains, x ∈ d) := by
  have hfil : domains.filter (fun d => d.length ≠ 0) = domains := by
    rw [List.filter_eq_self]
    intro d hd
    have := h d hd
    simp [List.length_eq_zero]
    exact this
  have h1 : unionDomain domains CATEGORICAL = domains.flatten := by
    unfold unionDomain
    rw [hfil, if_pos rfl]
  refine ⟨h1, ?_⟩
  rw [h1]
  exact List.mem_flatten

/-- Claim C6 (amended), witness at the claim's own example. -/
theorem unionDomain_categorical_amended_witness :
    (unionDomain [[.str "a", .str "b"], [.str "b", .str "c"]] CATEGORICAL
        = ([[JSVal.str "a", .str "b"], [.str "b", .str "c"]] : List (List JSVal)).flatten ∧
      (JSVal.str "b" ∈ unionDomain [[.str "a", .str "b"], [.str "b", .str "c"]] CATEGORICAL ↔
        ∃ d ∈ ([[JSVal.str "a", .str "b"], [.str "b", .str "c"]] : List (List JSVal)),
          JSVal.str "b" ∈ d)) ∧
    ([[JSVal.str "a", .str "b"], [.str "b", .str "c"]] : List (List JSVal)).flatten
      = [.str "a", .str "b", .str "b", .str "c"] :=
  ⟨unionDomain_categorical_amended [[.str "a", .str "b"], [.str "b", .str "c"]] (.str "b")
      (by decide), rfl⟩

/-- Claim C7: for a non-empty list of continuous contributing-series
domains `[lower, upper]`, `unionDomain` yields
`[min of all lowers, max of all uppers]`; the result is invariant under
permutation of the contributing domains, the produced bounds are attained
by some contributing domain, and they bound every contributing domain. -/
theorem unionDomain_continuous_minmax (ft : String) (ds ds' : List (Int × Int)) (x y : Int)
    (hft : ft ≠ CATEGORICAL) (hne : ds ≠ []) (hperm : ds.Perm ds') :
    unionDomain (numDomains ds) ft
        = [.num (intMinOf (ds.map Prod.fst)), .num (intMaxOf (ds.map Prod.snd))] ∧
    unionDomain (numDomains ds') ft = unionDomain (numDomains ds) ft ∧
    intMinOf (ds.map Prod.fst) ∈ ds.map Prod.fst ∧
    intMaxOf (ds.map Prod.snd) ∈ ds.map Prod.snd ∧
    (x ∈ ds.map Prod.fst → intMinOf (ds.map Prod.fst) ≤ x) ∧
    (y ∈ ds.map Prod.snd → y ≤ intMaxOf (ds.map Prod.snd)) := by
  have hne' : ds' ≠ [] := by
    intro hx
    subst hx
    exact hne (List.eq_nil_of_length_eq_zero hperm.length_eq)
  have hm1 : ds.map Prod.fst ≠ [] := by
    intro hx
    exact hne (List.map_eq_nil_iff.mp hx)
  have hm2 : ds.map Prod.snd ≠ [] := by
    intro hx
    exact hne (List.map_eq_nil_iff.mp hx)
  have h1 := unionDomain_numDomains ds ft hft hne
  have h2 := unionDomain_numDomains ds' ft hft hne'
  have hminp := intMinOf_perm (ds.map Prod.fst) (ds'.map Prod.fst) (hperm.map Prod.fst) hm1
  have hmaxp := intMaxOf_perm (ds.map Prod.snd) (ds'.map Prod.snd) (hperm.map Prod.snd) hm2
  refine ⟨h1, ?_, intMinOf_mem _ hm1, intMaxOf_mem _ hm2,
    fun hx => intMinOf_le _ x hx, fun hy => intMaxOf_ge _ y hy⟩
  rw [h1, h2, hminp, hmaxp]

/-- Claim C7, witness at the claim's own example: domains `[2,10]` and
`[-1,5]`, in either order, union to `[-1,10]`. -/
theorem unionDomain_continuous_minmax_witness :
    (unionDomain (numDomains [((2 : Int), (10 : Int)), (-1, 5)]) "linear"
        = [.num (intMinOf ([((2 : Int), (10 : Int)), (-1, 5)].map Prod.fst)),
           .num (intMaxOf ([((2 : Int), (10 : Int)), (-1, 5)].map Prod.snd))] ∧
      unionDomain (numDomains [((-1 : Int), (5 : Int)), (2, 10)]) "linear"
          = unionDomain (numDomains [((2 : Int), (10 : Int)), (-1, 5)]) "linear" ∧
      intMinOf ([((2 : Int), (10 : Int)), (-1, 5)].map Prod.fst)
          ∈ [((2 : Int), (10 : Int)), (-1, 5)].map Prod.fst ∧
      intMaxOf ([((2 : Int), (10 : Int)), (-1, 5)].map Prod.snd)
          ∈ [((2 : Int), (10 : Int)), (-1, 5)].map Prod.snd ∧
      ((2 : Int) ∈ [((2 : Int), (10 : Int)), (-1, 5)].map Prod.fst →
        intMinOf ([((2 : Int), (10 : Int)), (-1, 5)].map Prod.fst) ≤ 2) ∧
      ((5 : Int) ∈ [((2 : Int), (10 : Int)), (-1, 5)].map Prod.snd →
        5 ≤ intMaxOf ([((2 : Int), (10 : Int)), (-1, 5)].map Prod.snd))) ∧
    unionDomain (numDomains [((2 : Int), (10 : Int)), (-1, 5)]) "linear"
      = [.num (-1), .num 10] :=
  ⟨unionDomain_continuous_minmax "linear" [((2 : Int), (10 : Int)), (-1, 5)]
      [((-1 : Int), (5 : Int)), (2, 10)] 2 5 (by decide) (by decide) (by decide), rfl⟩

lemma getD_map_range (n : Nat) (f : Nat → JSVal) (i : Nat) (h : i < n) :
    ((List.range n).map f).getD i JSVal.undef = f i := by
  rw [List.getD_eq_getElem _ _ (by simpa using h)]
  simp

lemma map_range_getD (l : List JSVal) :
    (List.range l.length).map (fun i => l.getD i JSVal.undef) = l := by
  apply List.ext_getElem (by simp)
  intro i h1 h2
  simp only [List.getElem_map, List.getElem_range]
  rw [List.getD_eq_getElem _ _ h2]

lemma mergeSpread_nil (olds : List JSVal) : mergeSpread [] olds = olds := by
  have h2 : ∀ i ∈ List.range olds.length,
      (if ([] : List JSVal).getD i JSVal.undef = JSVal.undef ∧ i < olds.length
       then olds.getD i JSVal.undef else ([] : List JSVal).getD i JSVal.undef)
        = olds.getD i JSVal.undef := by
    intro i hi
    rw [List.mem_range] at hi
    simp [hi]
  unfold mergeSpread
  simp only [List.length_nil, Nat.zero_max]
  rw [List.map_congr_left h2, map_range_getD]

lemma filterGo_allfail (m : Meta) (prev : JSVal) :
    ∀ (ps : List JSVal) (i0 : Nat),
      (∀ j, j < ps.length → accepts m prev (i0 + j) (ps.getD j JSVal.undef) = .ok false) →
      filterGo m prev ps i0 = .ok [] := by
  intro ps
  induction ps with
  | nil => intro i0 _; rfl
  | cons p ps ih =>
      intro i0 h
      have h0 : accepts m prev i0 p = .ok false := by
        have := h 0 (Nat.succ_pos _)
        simpa using this
      have hrest : filterGo m prev ps (i0 + 1) = .ok [] := by
        apply ih
        intro j hj
        have hjj := h (j + 1) (by simpa using Nat.succ_lt_succ hj)
        have e : i0 + (j + 1) = i0 + 1 + j := by omega
        rw [e, List.getD_cons_succ] at hjj
        exact hjj
      simp only [filterGo, h0, hrest]
      rfl

lemma ok_bind {α β : Type} (a : α) (f : α → Except String β) :
    ((Except.ok a : Except String α) >>= f) = f a := rfl

lemma error_bind {α β : Type} (e : String) (f : α → Except String β) :
    ((Except.error e : Except String α) >>= f) = .error e := rfl

lemma map_ok {α β : Type} (f : α → β) (a : α) :
    (Except.ok a : Except String α).map f = .ok (f a) := rfl

lemma mergeSpread_length (values olds : List JSVal) :
    (mergeSpread values olds).length = max values.length olds.length := by
  unfold mergeSpread
  simp

/-- Claim C1, counterexample: a `spreadParams` accessor whose single
positional type check rejects everything, with previous stored sequence
`[1, 2]`.  Every supplied value fails the type check (`accepts` is
`.ok false`), yet a commit occurs: the merge refills the rejected
positions from the previous sequence and re-commits it. -/
theorem transactor_allfail_spread_commits_cex :
    accepts ⟨true, .arr [.fn (fun _ => .bool false)], .undef, .undef, false⟩
        (.arr [.num 1, .num 2]) 0 (.num 3) = .ok false ∧
    setterRun ⟨true, .arr [.fn (fun _ => .bool false)], .undef, .undef, false⟩
        (.arr [.num 1, .num 2]) [.num 3]
      = .ok ⟨none, some (.arr [.num 1, .num 2]), .arr [.num 1, .num 2]⟩ ∧
    (setterRun ⟨true, .arr [.fn (fun _ => .bool false)], .undef, .undef, false⟩
        (.arr [.num 1, .num 2]) [.num 3]).toOption.map SetterOut.committed ≠ some none :=
  ⟨rfl, rfl, by decide⟩

/-- Claim C1 (amended): when every supplied setter value fails the type
check, no new value is observable and no error is thrown; for a
non-`spreadParams` accessor the commit is skipped entirely and the getter
still returns the pre-call value, while for a `spreadParams` accessor
over an array-valued previous sequence the stored sequence is unchanged
but a commit of that very sequence does occur whenever it is non-empty. -/
theorem transactor_allfail_amended (m : Meta) (prev : JSVal) (params olds : List JSVal)
    (hne : params ≠ [])
    (htc : m.typeCheck.truthy = true)
    (hfail : ∀ j, j < params.length → accepts m prev j (params.getD j JSVal.undef) = .ok false) :
    (m.spreadParams = false →
      accessor m prev params
          = .ok (.set ⟨if m.preset then some JSVal.undef else none, none, prev⟩) ∧
      accessor m prev [] = .ok (.got prev)) ∧
    (m.spreadParams = true → prev = .arr olds →
      accessor m prev params
          = .ok (.set ⟨if m.preset then some JSVal.undef else none,
              if olds.length = 0 then none else some (.arr olds), .arr olds⟩)) := by
  have hlen : params.length ≠ 0 := by
    intro h0
    exact hne (List.eq_nil_of_length_eq_zero h0)
  have hfv : filterVals m prev params = .ok [] := by
    unfold filterVals
    apply filterGo_allfail
    intro j hj
    simpa using hfail j hj
  constructor
  · intro hs
    refine ⟨?_, rfl⟩
    unfold accessor
    rw [if_pos hlen]
    unfold setterRun
    rw [hfv, ok_bind, hs]
    rfl
  · intro hs hprev
    subst hprev
    unfold accessor
    rw [if_pos hlen]
    unfold setterRun
    rw [hfv, ok_bind, hs]
    show Except.map AccessOut.set
        (if (mergeSpread [] olds).length ≠ 0 then
          .ok ⟨if m.preset then some (List.headD [] JSVal.undef) else none,
            some (.arr (mergeSpread [] olds)), .arr (mergeSpread [] olds)⟩
        else .ok ⟨if m.preset then some (List.headD [] JSVal.undef) else none,
            none, .arr olds⟩) = _
    rw [mergeSpread_nil]
    by_cases hol : olds.length = 0
    · have holn : olds = [] := List.eq_nil_of_length_eq_zero hol
      subst holn
      rfl
    · rw [if_pos hol, if_neg hol, map_ok]
      rfl

/-- Claim C1 (amended), witness: a non-`spreadParams` accessor with an
always-rejecting function type check; the setter call with `3` leaves the
stored `7` untouched and skips the commit, and the getter returns `7`. -/
theorem transactor_allfail_amended_witness :
    ((Meta.spreadParams ⟨false, .fn (fun _ => .bool false), .undef, .undef, false⟩ = false →
      accessor ⟨false, .fn (fun _ => .bool false), .undef, .undef, false⟩ (.num 7) [.num 3]
          = .ok (.set ⟨if Meta.preset ⟨false, .fn (fun _ => .bool false), .undef, .undef, false⟩
                then some JSVal.undef else none, none, .num 7⟩) ∧
      accessor ⟨false, .fn (fun _ => .bool false), .undef, .undef, false⟩ (.num 7) []
          = .ok (.got (.num 7))) ∧
    (Meta.spreadParams ⟨false, .fn (fun _ => .bool false), .undef, .undef, false⟩ = true →
      JSVal.num 7 = .arr [] →
      accessor ⟨false, .fn (fun _ => .bool false), .undef, .undef, false⟩ (.num 7) [.num 3]
          = .ok (.set ⟨if Meta.preset ⟨false, .fn (fun _ => .bool false), .undef, .undef, false⟩
                then some JSVal.undef else none,
              if List.length ([] : List JSVal) = 0 then none else some (.arr []), .arr []⟩))) :=
  transactor_allfail_amended ⟨false, .fn (fun _ => .bool false), .undef, .undef, false⟩
    (.num 7) [.num 3] [] (by simp)
    rfl
    (fun j hj => by
      rw [List.length_cons, List.length_nil] at hj
      have hj0 : j = 0 := Nat.lt_one_iff.mp hj
      subst hj0
      rfl)

/-- Claim C3: a `spreadParams` setter merges the post-filtering value list
by position with the previously stored sequence — a position holding
`undefined` takes the previous sequence's entry, a defined position keeps
the incoming value — and commits the merged sequence. -/
theorem transactor_spread_merge (m : Meta) (olds params values : List JSVal) (i : Nat)
    (hs : m.spreadParams = true)
    (hf : filterVals m (.arr olds) params = .ok values)
    (hne : params ≠ []) :
    accessor m (.arr olds) params
        = .ok (.set ⟨if m.preset then some (values.headD JSVal.undef) else none,
            if (mergeSpread values olds).length = 0 then none
            else some (.arr (mergeSpread values olds)),
            if (mergeSpread values olds).length = 0 then JSVal.arr olds
            else .arr (mergeSpread values olds)⟩) ∧
    (i < olds.length → values.getD i JSVal.undef = JSVal.undef →
      (mergeSpread values olds).getD i JSVal.undef = olds.getD i JSVal.undef) ∧
    (i < values.length → values.getD i JSVal.undef ≠ JSVal.undef →
      (mergeSpread values olds).getD i JSVal.undef = values.getD i JSVal.undef) := by
  have hlen : params.length ≠ 0 := by
    intro h0
    exact hne (List.eq_nil_of_length_eq_zero h0)
  refine ⟨?_, ?_, ?_⟩
  · unfold accessor
    rw [if_pos hlen]
    unfold setterRun
    rw [hf, ok_bind, hs]
    show Except.map AccessOut.set
        (if (mergeSpread values olds).length ≠ 0 then
          .ok ⟨if m.preset then some (values.headD JSVal.undef) else none,
            some (.arr (mergeSpread values olds)), .arr (mergeSpread values olds)⟩
        else .ok ⟨if m.preset then some (values.headD JSVal.undef) else none,
            none, .arr olds⟩) = _
    by_cases hml : (mergeSpread values olds).length = 0
    · rw [if_neg (fun hc => hc hml), if_pos hml, if_pos hml, map_ok]
    · rw [if_pos hml, if_neg hml, if_neg hml, map_ok]
  · intro h1 h2
    have hmax : i < max values.length olds.length := lt_of_lt_of_le h1 (Nat.le_max_right _ _)
    unfold mergeSpread
    rw [getD_map_range _ _ _ hmax, if_pos (And.intro h2 h1)]
  · intro h1 h2
    have hmax : i < max values.length olds.length := lt_of_lt_of_le h1 (Nat.le_max_left _ _)
    unfold mergeSpread
    rw [getD_map_range _ _ _ hmax, if_neg (fun hc => h2 hc.1)]

/-- Claim C3, witness at the claim's own example: after `setter(1, 2)` the
stored sequence is `[1, 2]`, and `setter(undefined, 5)` then stores
`[1, 5]`, position `0` being refilled from the previous sequence. -/
theorem transactor_spread_merge_witness :
    (accessor ⟨true, .undef, .undef, .undef, false⟩ (.arr [.num 1, .num 2]) [.undef, .num 5]
        = .ok (.set ⟨if Meta.preset ⟨true, .undef, .undef, .undef, false⟩
              then some (List.headD [JSVal.undef, .num 5] JSVal.undef) else none,
            if (mergeSpread [JSVal.undef, .num 5] [.num 1, .num 2]).length = 0 then none
            else some (.arr (mergeSpread [JSVal.undef, .num 5] [.num 1, .num 2])),
            if (mergeSpread [JSVal.undef, .num 5] [.num 1, .num 2]).length = 0
            then JSVal.arr [.num 1, .num 2]
            else .arr (mergeSpread [JSVal.undef, .num 5] [.num 1, .num 2])⟩) ∧
      ((0 : Nat) < List.length [JSVal.num 1, .num 2] →
        List.getD [JSVal.undef, .num 5] 0 JSVal.undef = JSVal.undef →
        (mergeSpread [JSVal.undef, .num 5] [.num 1, .num 2]).getD 0 JSVal.undef
          = List.getD [JSVal.num 1, .num 2] 0 JSVal.undef) ∧
      ((0 : Nat) < List.length [JSVal.undef, .num 5] →
        List.getD [JSVal.undef, .num 5] 0 JSVal.undef ≠ JSVal.undef →
        (mergeSpread [JSVal.undef, .num 5] [.num 1, .num 2]).getD 0 JSVal.undef
          = List.getD [JSVal.undef, .num 5] 0 JSVal.undef)) ∧
    mergeSpread [JSVal.undef, .num 5] [.num 1, .num 2] = [.num 1, .num 5] ∧
    (setterRun ⟨true, .undef, .undef, .undef, false⟩ (.arr []) [.num 1, .num 2]).toOption.map
        SetterOut.stored = some (.arr [.num 1, .num 2]) :=
  ⟨transactor_spread_merge ⟨true, .undef, .undef, .undef, false⟩ [.num 1, .num 2]
      [.undef, .num 5] [.undef, .num 5] 0 rfl rfl (by simp), rfl, rfl⟩

lemma setterRun_eval_nospread (m : Meta) (prev : JSVal) (params values : List JSVal)
    (hf : filterVals m prev params = .ok values) (hs : m.spreadParams = false) :
    setterRun m prev params =
      (if values.length ≠ 0 then
        .ok ⟨if m.preset then some (values.headD JSVal.undef) else none,
          some (values.headD JSVal.undef), values.headD JSVal.undef⟩
      else .ok ⟨if m.preset then some (values.headD JSVal.undef) else none, none, prev⟩) := by
  unfold setterRun
  rw [hf, ok_bind, hs]
  rfl

lemma setterRun_eval_spread (m : Meta) (olds : List JSVal) (params values : List JSVal)
    (hf : filterVals m (.arr olds) params = .ok values) (hs : m.spreadParams = true) :
    setterRun m (.arr olds) params =
      (if (mergeSpread values olds).length ≠ 0 then
        .ok ⟨if m.preset then some (values.headD JSVal.undef) else none,
          some (.arr (mergeSpread values olds)), .arr (mergeSpread values olds)⟩
      else .ok ⟨if m.preset then some (values.headD JSVal.undef) else none, none, .arr olds⟩) := by
  unfold setterRun
  rw [hf, ok_bind, hs]
  rfl

/-- Claim C8, counterexample: a `spreadParams` accessor with a declared
preset and an always-rejecting positional type check, previous stored
sequence `[1]`.  No value survives type-checking (`filterVals` is empty),
the preset fires with first argument `undefined` — and yet a commit of
the refilled previous sequence follows, against the claim's "no commit
follows". -/
theorem preset_commit_cex :
    filterVals ⟨true, .arr [.fn (fun _ => .bool false)], .undef, .undef, true⟩
        (.arr [.num 1]) [.num 2] = .ok [] ∧
    setterRun ⟨true, .arr [.fn (fun _ => .bool false)], .undef, .undef, true⟩
        (.arr [.num 1]) [.num 2]
      = .ok ⟨some .undef, some (.arr [.num 1]), .arr [.num 1]⟩ ∧
    (setterRun ⟨true, .arr [.fn (fun _ => .bool false)], .undef, .undef, true⟩
        (.arr [.num 1]) [.num 2]).toOption.map SetterOut.committed ≠ some none :=
  ⟨rfl, rfl, by decide⟩

/-- Claim C8 (amended): a setter of an accessor with a declared preset
always invokes the preset, with the first value surviving sanitization
and type-checking (or `undefined` when none survives) as its first
argument, before any commit; when no value survives, no commit follows
for a non-`spreadParams` accessor, while a `spreadParams` accessor still
commits the refilled previous sequence whenever it is non-empty. -/
theorem preset_invocation_amended (m : Meta) (prev : JSVal)
    (params values olds : List JSVal)
    (hp : m.preset = true) (hne : params ≠ [])
    (hf : filterVals m prev params = .ok values)
    (hpr : m.spreadParams = true → prev = .arr olds) :
    (setterRun m prev params).toOption.map SetterOut.presetArg
        = some (some (values.headD JSVal.undef)) ∧
    (m.spreadParams = false → values = [] →
      setterRun m prev params = .ok ⟨some JSVal.undef, none, prev⟩) ∧
    (m.spreadParams = true → values = [] → olds ≠ [] →
      setterRun m prev params = .ok ⟨some JSVal.undef, some (.arr olds), .arr olds⟩) := by
  cases hsp : m.spreadParams with
  | false =>
      by_cases hv : values.length = 0
      · have hv0 : values = [] := List.eq_nil_of_length_eq_zero hv
        subst hv0
        have hrun : setterRun m prev params = .ok ⟨some JSVal.undef, none, prev⟩ := by
          rw [setterRun_eval_nospread m prev params [] hf hsp]
          simp [hp]
        exact ⟨by rw [hrun]; rfl, fun _ _ => hrun, fun h => Bool.noConfusion h⟩
      · have hrun : setterRun m prev params
            = .ok ⟨some (values.headD JSVal.undef), some (values.headD JSVal.undef),
                values.headD JSVal.undef⟩ := by
          rw [setterRun_eval_nospread m prev params values hf hsp]
          simp [hp, hv]
        refine ⟨by rw [hrun]; rfl,
          fun _ hv2 => absurd (by rw [hv2]; rfl : values.length = 0) hv,
          fun h => Bool.noConfusion h⟩
  | true =>
      have hpv : prev = .arr olds := hpr hsp
      subst hpv
      by_cases hml : (mergeSpread values olds).length = 0
      · have hmz : max values.length olds.length = 0 := by
          rw [← mergeSpread_length values olds]
          exact hml
        have holds0 : olds = [] :=
          List.eq_nil_of_length_eq_zero (Nat.max_eq_zero_iff.mp hmz).2
        have hrun : setterRun m (.arr olds) params
            = .ok ⟨some (values.headD JSVal.undef), none, .arr olds⟩ := by
          rw [setterRun_eval_spread m olds params values hf hsp]
          simp [hp, hml]
        refine ⟨by rw [hrun]; rfl,
          fun h => Bool.noConfusion h,
          fun _ _ ho => absurd holds0 ho⟩
      · have hrun : setterRun m (.arr olds) params
            = .ok ⟨some (values.headD JSVal.undef), some (.arr (mergeSpread values olds)),
                .arr (mergeSpread values olds)⟩ := by
          rw [setterRun_eval_spread m olds params values hf hsp]
          simp [hp, hml]
        refine ⟨by rw [hrun]; rfl,
          fun h => Bool.noConfusion h,
          fun _ hv2 ho => ?_⟩
        subst hv2
        rw [hrun, mergeSpread_nil]
        rfl

/-- Claim C8 (amended), witness: a non-`spreadParams` accessor with
preset and an always-rejecting type check; `setter(4)` on stored `9`
invokes the preset with `undefined` and skips the commit. -/
theorem preset_invocation_amended_witness :
    (setterRun ⟨false, .fn (fun _ => .bool false), .undef, .undef, true⟩
        (.num 9) [.num 4]).toOption.map SetterOut.presetArg
      = some (some (List.headD ([] : List JSVal) JSVal.undef)) ∧
    (Meta.spreadParams ⟨false, .fn (fun _ => .bool false), .undef, .undef, true⟩ = false →
      ([] : List JSVal) = [] →
      setterRun ⟨false, .fn (fun _ => .bool false), .undef, .undef, true⟩ (.num 9) [.num 4]
        = .ok ⟨some JSVal.undef, none, .num 9⟩) ∧
    (Meta.spreadParams ⟨false, .fn (fun _ => .bool false), .undef, .undef, true⟩ = true →
      ([] : List JSVal) = [] → ([] : List JSVal) ≠ [] →
      setterRun ⟨false, .fn (fun _ => .bool false), .undef, .undef, true⟩ (.num 9) [.num 4]
        = .ok ⟨some JSVal.undef, some (.arr []), .arr []⟩) :=
  preset_invocation_amended ⟨false, .fn (fun _ => .bool false), .undef, .undef, true⟩
    (.num 9) [.num 4] [] [] rfl (by simp) rfl (fun h => Bool.noConfusion h)

lemma ctor_accepts_falsy (m : Meta) (prev p : JSVal) (i : Nat)
    (hs : m.spreadParams = false) (hc : m.typeCheck = .strv "constructor")
    (hsan : m.sanitization = .undef) (hfal : p.truthy = false) :
    accepts m prev i p = .ok false := by
  unfold accepts sanitize tcDecide effS effTC
  rw [hc, hsan, hs]
  simp [TCheck.truthy, SField.truthy, hfal, ok_bind]

/-- Claim C10: under the literal `"constructor"` type check of a
non-`spreadParams` descriptor (no sanitizer), every falsy value is
rejected — the truthiness guard short-circuits before
`val.constructor.name` is compared, whatever `typeExpected` holds — and a
setter whose arguments are all falsy drops them all silently: no commit,
stored value untouched, no error. -/
theorem ctor_typeCheck_falsy_dropped (m : Meta) (prev : JSVal) (params : List JSVal)
    (i : Nat) (p : JSVal)
    (hs : m.spreadParams = false)
    (hc : m.typeCheck = .strv "constructor")
    (hsan : m.sanitization = .undef)
    (hne : params ≠ [])
    (hfal : ∀ q ∈ params, q.truthy = false) :
    (p.truthy = false → accepts m prev i p = .ok false) ∧
    accessor m prev params
      = .ok (.set ⟨if m.preset then some JSVal.undef else none, none, prev⟩) := by
  have hlen : params.length ≠ 0 := by
    intro h0
    exact hne (List.eq_nil_of_length_eq_zero h0)
  have hacc : ∀ j, j < params.length →
      accepts m prev j (params.getD j JSVal.undef) = .ok false := by
    intro j hj
    have hmem : params.getD j JSVal.undef ∈ params := by
      rw [List.getD_eq_getElem _ _ hj]
      exact List.getElem_mem hj
    exact ctor_accepts_falsy m prev _ j hs hc hsan (hfal _ hmem)
  have hfv : filterVals m prev params = .ok [] := by
    unfold filterVals
    apply filterGo_allfail
    intro j hj
    simpa using hacc j hj
  refine ⟨fun hfp => ctor_accepts_falsy m prev p i hs hc hsan hfp, ?_⟩
  unfold accessor
  rw [if_pos hlen]
  unfold setterRun
  rw [hfv, ok_bind, hs]
  rfl

/-- Claim C10, witness: the constructor-checked setter called with every
falsy value — `null`, `undefined`, `0`, `''`, `false` — drops them all
and leaves the stored `7` uncommitted and unchanged. -/
theorem ctor_typeCheck_falsy_dropped_witness :
    (JSVal.null.truthy = false →
      accepts ⟨false, .strv "constructor", .str "Array", .undef, false⟩ (.num 7) 0 .null
        = .ok false) ∧
    accessor ⟨false, .strv "constructor", .str "Array", .undef, false⟩ (.num 7)
        [.null, .undef, .num 0, .str "", .bool false]
      = .ok (.set ⟨if Meta.preset ⟨false, .strv "constructor", .str "Array", .undef, false⟩
            then some JSVal.undef else none, none, .num 7⟩) :=
  ctor_typeCheck_falsy_dropped ⟨false, .strv "constructor", .str "Array", .undef, false⟩
    (.num 7) [.null, .undef, .num 0, .str "", .bool false] 0 .null
    rfl rfl rfl (by simp) (by decide)

/-- Claim C9 (code bug): `sanitizeIP.typeObj` behaves as claimed on
non-objects (Error value), objects with missing keys (Error value listing
them) and complete objects (passed through) — but `typeof null` is
`"object"`, so a `null` argument slips past the type gate into
`checkExistence`, whose `in` operator then throws a `TypeError` instead
of an Error value being returned. -/
theorem sanitizeIP_typeObj_null_throws :
    typeofStr JSVal.null = "object" ∧
    checkExistence ["a"] JSVal.null = .error "TypeError" ∧
    sanitizeIP_typeObj ["a"] JSVal.null = .error "TypeError" ∧
    sanitizeIP_typeObj ["a"] (.obj "Object" 0 false [])
      = .ok (.err "Missing keys from parameter a") ∧
    sanitizeIP_typeObj ["a"] (.obj "Object" 0 false ["a"])
      = .ok (.pass (.obj "Object" 0 false ["a"])) ∧
    sanitizeIP_typeObj ["a"] (.num 3) = .ok (.err "Argument type object expected") :=
  ⟨rfl, rfl, rfl, rfl, rfl, rfl⟩

/-- Claim C4, counterexample: the unrecognized watched property
`"zoomLevel"` with a pair of plainly different values `1` and `2` is
deemed UNCHANGED: the fallback checker reports the pair equal, and
`equalityChecker` reports no change — the claim's "always changed" is the
opposite of what the code does. -/
theorem equalityChecker_unknown_cex :
    perPropChecker "zoomLevel" (.num 1) (.num 2) = .ok true ∧
    equalityChecker ["zoomLevel"] [(.num 1, .num 2)] = .ok false ∧
    JSVal.num 1 ≠ JSVal.num 2 :=
  ⟨rfl, rfl, by decide⟩

/-- Claim C4 (amended): for a watched property name outside the eight
recognized categories, the fallback per-pair checker deems every
`[old, new]` pair EQUAL (never changed), so such a property on its own
never makes the equality policy report a change. -/
theorem equalityChecker_unknown_amended (p : String) (o n : JSVal)
    (hp : p ∉ knownCanvasProps) :
    perPropChecker p o n = .ok true ∧ equalityChecker [p] [(o, n)] = .ok false := by
  have h1 : ¬(p = ROWS ∨ p = COLUMNS ∨ p = DETAIL) := by
    intro hc
    rcases hc with h | h | h <;> exact hp (by rw [h]; simp [knownCanvasProps])
  have h2 : ¬(p = SHAPE ∨ p = SIZE ∨ p = COLOR ∨ p = DATA ∨ p = CONFIG) := by
    intro hc
    rcases hc with h | h | h | h | h <;> exact hp (by rw [h]; simp [knownCanvasProps])
  have hpp : perPropChecker p o n = .ok true := by
    unfold perPropChecker
    rw [if_neg h1, if_neg h2]
  have he : eqEvery [p] [(o, n)] = .ok true := by
    unfold eqEvery
    rw [hpp, ok_bind]
    rfl
  refine ⟨hpp, ?_⟩
  unfold equalityChecker
  rw [he]
  rfl

/-- Claim C4 (amended), witness: the unknown property `"zoom"` with two
different strings is deemed equal and produces no change report. -/
theorem equalityChecker_unknown_amended_witness :
    perPropChecker "zoom" (.str "x") (.str "y") = .ok true ∧
    equalityChecker ["zoom"] [(.str "x", .str "y")] = .ok false :=
  equalityChecker_unknown_amended "zoom" (.str "x") (.str "y") (by decide)

/-- Claim C2, counterexample: rows and columns each unchanged (equal
arrays, so `equalityChecker` reports no change), yet the canvas listener
decision is to RUN the downstream work, because the equality result is
overwritten by the validity check before it is consulted. -/
theorem changeListener_equality_discarded_cex :
    equalityChecker ["rows", "columns"]
        [(.arr [.str "a"], .arr [.str "a"]), (.arr [.str "b"], .arr [.str "b"])] = .ok false ∧
    canvasListenerDecision ["rows", "columns"]
        [(.arr [.str "a"], .arr [.str "a"]), (.arr [.str "b"], .arr [.str "b"])]
        (.obj "Object" 0 false []) = .ok true :=
  ⟨rfl, rfl⟩

/-- Claim C2 (amended): the canvas change listener evaluates the equality
check first but discards its result; the downstream dispatch-and-render
work runs exactly when the validity filter (`updateChecker`) passes and
the mount point is truthy, regardless of what the equality check said. -/
theorem changeListener_gate_amended (props : List String) (params : List (JSVal × JSVal))
    (mount : JSVal) (b u : Bool)
    (heq : equalityChecker props params = .ok b)
    (hupd : updateChecker props params = .ok u) :
    canvasListenerDecision props params mount = .ok (u && mount.truthy) := by
  unfold canvasListenerDecision
  rw [heq, ok_bind, hupd, ok_bind]

/-- Claim C2 (amended), witness: rows changing from `null` to `['a']`
with the validity filter passing and a mounted canvas yields a positive
decision. -/
theorem changeListener_gate_amended_witness :
    canvasListenerDecision ["rows"] [(.null, .arr [.str "a"])] (.obj "Object" 1 false [])
      = .ok (true && (JSVal.obj "Object" 1 false []).truthy) :=
  changeListener_gate_amended ["rows"] [(.null, .arr [.str "a"])] (.obj "Object" 1 false [])
    true true rfl rfl

lemma updateChecker_not_ok_true (props : List String) (params : List (JSVal × JSVal)) (i : Nat)
    (hi : i < props.length)
    (hfail : updateCheckerProp (props.getD i "") ((params.getD i (.undef, .undef)).2)
      ≠ .ok true) :
    updateChecker props params ≠ .ok true := by
  induction props generalizing params i with
  | nil => exact absurd hi (by simp)
  | cons p ps ih =>
      cases params with
      | nil =>
          intro hcc
          simp [updateChecker] at hcc
      | cons q qs =>
          cases i with
          | zero =>
              rcases hb : updateCheckerProp p q.2 with e | bb
              · intro hcc
                simp [updateChecker, hb, error_bind] at hcc
              · cases bb
                · intro hcc
                  simp [updateChecker, hb, ok_bind] at hcc
                · exact absurd hb (by simpa using hfail)
          | succ j =>
              rcases hb : updateCheckerProp p q.2 with e | bb
              · intro hcc
                simp [updateChecker, hb, error_bind] at hcc
              · cases bb
                · intro hcc
                  simp [updateChecker, hb, ok_bind] at hcc
                · have hj : j < ps.length := by
                    rw [List.length_cons] at hi
                    exact Nat.lt_of_succ_lt_succ hi
                  have hih := ih qs j hj (by simpa using hfail)
                  intro hcc
                  apply hih
                  simp [updateChecker, hb, ok_bind] at hcc
                  exact hcc

lemma decision_ok_true_imp (props : List String) (params : List (JSVal × JSVal))
    (mount : JSVal)
    (h : canvasListenerDecision props params mount = .ok true) :
    updateChecker props params = .ok true := by
  unfold canvasListenerDecision at h
  rcases he : equalityChecker props params with e | bb
  · rw [he, error_bind] at h
    exact absurd h (by simp)
  · rw [he, ok_bind] at h
    rcases hu : updateChecker props params with e2 | u
    · rw [hu, error_bind] at h
      exact absurd h (by simp)
    · rw [hu, ok_bind] at h
      cases u
      · simp at h
      · rfl

/-- Claim C5: when some watched position holds `rows`/`columns` with a
`null` new value, or `data` with a falsy or self-reportedly empty new
value, the validity filter cannot pass and the canvas listener decision
is never to run the downstream dispatch-and-render work — whatever the
equality check reported. -/
theorem updateChecker_gates_render (props : List String) (params : List (JSVal × JSVal))
    (mount : JSVal) (i : Nat)
    (hi : i < props.length)
    (hcase :
      ((props.getD i "" = ROWS ∨ props.getD i "" = COLUMNS) ∧
        (params.getD i (.undef, .undef)).2 = .null) ∨
      (props.getD i "" = DATA ∧
        ((params.getD i (.undef, .undef)).2.truthy = false ∨
          isEmptyCall (params.getD i (.undef, .undef)).2 = .ok true))) :
    updateChecker props params ≠ .ok true ∧
    canvasListenerDecision props params mount ≠ .ok true := by
  have hfail : updateCheckerProp (props.getD i "") ((params.getD i (.undef, .undef)).2)
      ≠ .ok true := by
    rcases hcase with ⟨hrc, hnull⟩ | ⟨hd, hdata⟩
    · rw [hnull]
      unfold updateCheckerProp
      rw [if_pos hrc]
      simp
    · rw [hd]
      unfold updateCheckerProp
      have hnd : ¬(DATA = ROWS ∨ DATA = COLUMNS) := by decide
      rw [if_neg hnd, if_pos rfl]
      rcases hdata with hft | hie
      · rw [hft]
        simp
      · rcases hvt : (params.getD i (JSVal.undef, JSVal.undef)).2.truthy with _ | _
        · simp
        · rw [if_pos rfl, hie, ok_bind]
          simp
  have h1 := updateChecker_not_ok_true props params i hi hfail
  exact ⟨h1, fun hdec => h1 (decision_ok_true_imp props params mount hdec)⟩

/-- Claim C5, witness at the spec's scenario: rows and columns are null
and only data carries a (non-empty) value; the validity filter fails and
the decision is not to render, even though the equality check reports a
change. -/
theorem updateChecker_gates_render_witness :
    (updateChecker ["rows", "columns", "data"]
        [(.null, .null), (.null, .null), (.undef, .obj "DataModel" 2 false [])] ≠ .ok true ∧
      canvasListenerDecision ["rows", "columns", "data"]
        [(.null, .null), (.null, .null), (.undef, .obj "DataModel" 2 false [])]
        (.obj "Object" 3 false []) ≠ .ok true) ∧
    equalityChecker ["rows", "columns", "data"]
        [(.null, .null), (.null, .null), (.undef, .obj "DataModel" 2 false [])] = .ok true :=
  ⟨updateChecker_gates_render ["rows", "columns", "data"]
      [(.null, .null), (.null, .null), (.undef, .obj "DataModel" 2 false [])]
      (.obj "Object" 3 false []) 0 (by simp) (Or.inl ⟨Or.inl rfl, rfl⟩), rfl⟩
